import Mathlib

/-!
Verification of the frame-capture loop (`src/frames.py`).

The program opens a video stream, and in an infinite loop reads a frame,
saves it under a wall-clock-derived filename inside a fixed output
directory, prints a confirmation, and sleeps for a fixed interval.  It
stops on a failed read or on a user interrupt (Ctrl+C), after which the
stream handle is released.

The shallow embedding models one run of the script as a function from an
environment (whether the stream opens, the result of each read, the
wall clock at each iteration, and the position of an optional user
interrupt) to the list of observable events the script performs, the
terminal outcome, and the process exit status.  Python delivers
`KeyboardInterrupt` between statements, so interrupt positions are the
gaps between the atomic operations of the loop body; file writes are
atomic in this model for the same reason.  `exit()` with no argument
raises `SystemExit(None)`, which terminates the process with status 0,
so the open-failure path carries exit code 0.
-/

set_option autoImplicit false

namespace Frames

/-! ### Wall-clock timestamps and `strftime` -/

/-- A wall-clock timestamp at second resolution, as carried by a Python
`datetime` object (only the fields used by the format string matter). -/
structure DateTime where
  year : Nat
  month : Nat
  day : Nat
  hour : Nat
  minute : Nat
  second : Nat
deriving DecidableEq, Repr

/-- Field ranges of a real calendar timestamp (`datetime.now()` always
returns values in these ranges; years are four digits). -/
def DateTime.Valid (d : DateTime) : Prop :=
  d.year < 10000 ∧ 1 ≤ d.month ∧ d.month ≤ 12 ∧ 1 ≤ d.day ∧ d.day ≤ 31 ∧
    d.hour < 24 ∧ d.minute < 60 ∧ d.second < 60

instance (d : DateTime) : Decidable d.Valid := by
  unfold DateTime.Valid; infer_instance

/-- Mixed-radix linearization of a timestamp; strictly monotone in calendar
order on valid timestamps, used to express "earlier/later" and "more than
one second apart" for the second-resolution clock. -/
def timeKey (d : DateTime) : Nat :=
  d.second + 60 * (d.minute + 60 * (d.hour + 24 * (d.day + 32 * (d.month + 13 * d.year))))

/-- Big-endian decimal digits of `n`, zero-padded on the left to width `w`
(the behaviour of the zero-padded `strftime` conversions). -/
def padDigits (w n : Nat) : List Nat :=
  List.replicate (w - (Nat.digits 10 n).length) 0 ++ (Nat.digits 10 n).reverse

/-- The character for one decimal digit. -/
def digitChar (d : Nat) : Char := Char.ofNat (48 + d)

/-- Read a big-endian digit list back as a number (left inverse of
`padDigits`, used to show the formatted name determines the fields). -/
def undigits (l : List Nat) : Nat := l.foldl (fun a d => 10 * a + d) 0

/-- Digits of the date half `YYYYMMDD` of the format string. -/
def dateDigits (d : DateTime) : List Nat :=
  padDigits 4 d.year ++ (padDigits 2 d.month ++ padDigits 2 d.day)

/-- Digits of the time half `HHMMSS` of the format string. -/
def timeDigits (d : DateTime) : List Nat :=
  padDigits 2 d.hour ++ (padDigits 2 d.minute ++ padDigits 2 d.second)

/-- Python `d.strftime("%Y%m%d_%H%M%S")`: zero-padded date digits, an
underscore, zero-padded time digits. -/
def strftimeYmdHMS (d : DateTime) : String :=
  String.mk ((dateDigits d).map digitChar ++ '_' :: (timeDigits d).map digitChar)

/-- Line 30: `filename = datetime.now().strftime("%Y%m%d_%H%M%S") + ".jpg"`. -/
def filename (d : DateTime) : String := strftimeYmdHMS d ++ ".jpg"

/-! ### Filesystem paths and `os` calls -/

/-- Posix `os.path.join`: an absolute second component wins; otherwise the
components are joined with a separator unless one is already present. -/
def os_path_join (a b : String) : String :=
  if b.data.head? = some '/' then b
  else if a.data = [] ∨ a.data.getLast? = some '/' then a ++ b
  else a ++ "/" ++ b

/-- Split a character list at every slash (helper for `os.makedirs`
parent creation). -/
def splitOnSlash : List Char → List (List Char)
  | [] => [[]]
  | c :: rest =>
    let r := splitOnSlash rest
    if c = '/' then [] :: r
    else
      match r with
      | [] => [[c]]
      | h :: t => (c :: h) :: t

/-- Every ancestor path of `p` (each prefix of its slash-separated
components), ending with `p` itself. -/
def pathPrefixes (p : String) : List String :=
  let parts := splitOnSlash p.data
  (List.range parts.length).map fun k => String.mk (List.intercalate ['/'] (parts.take (k + 1)))

/-- Python `os.makedirs(path, exist_ok)` over a directory-set filesystem
model: raises `FileExistsError` when the directory exists and
`exist_ok` is false, otherwise creates the directory and any missing
parent directories. -/
def os_makedirs (path : String) (exist_ok : Bool) (fs : List String) :
    Except String (List String) :=
  if path ∈ fs ∧ exist_ok = false then Except.error "FileExistsError"
  else Except.ok (fs ++ (pathPrefixes path).filter fun q => ¬ q ∈ fs)

/-! ### Program constants (lines 7, 17, 20, 26, 13, 39, 36 of the source) -/

/-- Line 7: the hardcoded stream URL. -/
def stream_url : String := "http://192.168.137.50:5000/video_feed"

/-- Line 17: the hardcoded output directory. -/
def save_dir : String := "captured_images"

/-- Line 36: the argument of `time.sleep` (the interval actually applied). -/
def sleep_seconds : Nat := 60

/-- Line 20: the startup message (which describes a 20-second interval). -/
def startupMessage : String := "Capturing images every 20 seconds... Press Ctrl+C to stop."

/-- Line 13: the open-failure message. -/
def openErrorMessage : String := "Error: Could not open video stream."

/-- Line 26: the read-failure message. -/
def failMessage : String := "Failed to grab frame."

/-- Line 39: the user-stop message. -/
def stopMessage : String := "\nStopped by user."

/-! ### Run semantics -/

/-- Observable actions of one run, in program order. -/
inductive Event
  | openStream (url : String)
  | mkdirs (dir : String)
  | msg (text : String)
  | read (i : Nat) (ok : Bool)
  | save (path : String)
  | sleep (seconds : Nat)
  | release
  | destroyAll
deriving DecidableEq, Repr

/-- Gaps between the atomic statements of the loop body at which a
`KeyboardInterrupt` can be delivered. -/
inductive IPoint
  | beforeRead
  | afterRead
  | afterSave
  | afterPrint
  | duringSleep
deriving DecidableEq, Repr

/-- The external world of one run: whether `cap.isOpened()` holds, the
result of the read on each iteration, the wall clock at each iteration
and the position of the user interrupt, if any. -/
structure Env where
  isOpened : Bool
  readOk : Nat → Bool
  now : Nat → DateTime
  interrupt : Option (Nat × IPoint)

/-- Why the `while True` loop stopped (`fuelOut` marks a run truncated by
the fuel bound, not a terminal state of the program). -/
inductive LoopExit
  | readFail
  | userStop
  | fuelOut
deriving DecidableEq, Repr

/-- Terminal (or truncated) condition of one run. -/
inductive Outcome
  | failedOpen
  | running
  | stoppedRead
  | stoppedUser
deriving DecidableEq, Repr

/-- Result of one run: its event trace, outcome, and process exit status. -/
structure RunResult where
  events : List Event
  outcome : Outcome
  exitCode : Nat
deriving DecidableEq, Repr

/-- Line 31: `filepath = os.path.join(save_dir, filename)` at iteration `i`. -/
def filepath (env : Env) (i : Nat) : String := os_path_join save_dir (filename (env.now i))

/-- Events of one complete successful iteration of the loop body
(lines 24-36): read, save, confirmation message, sleep. -/
def iterEvents (env : Env) (i : Nat) : List Event :=
  [Event.read i true, Event.save (filepath env i),
    Event.msg ("Saved: " ++ filepath env i), Event.sleep sleep_seconds]

/-- The interrupt position of the environment at iteration `i`, if any. -/
def interruptedAt (env : Env) (i : Nat) : Option IPoint :=
  match env.interrupt with
  | some (j, p) => if j = i then some p else none
  | none => none

/-- Events completed inside iteration `i` before a `KeyboardInterrupt`
delivered at point `p` unwinds to the handler. -/
def interruptTail (env : Env) (i : Nat) : IPoint → List Event
  | IPoint.beforeRead => []
  | IPoint.afterRead => [Event.read i true]
  | IPoint.afterSave => [Event.read i true, Event.save (filepath env i)]
  | IPoint.afterPrint =>
      [Event.read i true, Event.save (filepath env i),
        Event.msg ("Saved: " ++ filepath env i)]
  | IPoint.duringSleep =>
      [Event.read i true, Event.save (filepath env i),
        Event.msg ("Saved: " ++ filepath env i)]

/-- The `while True` loop (lines 23-36), from iteration `i`, with a fuel
bound on the number of remaining iterations.  A failed read prints the
failure message and breaks; an interrupt stops the loop at its delivery
point with the events completed so far. -/
def loop (env : Env) (i : Nat) : Nat → List Event × LoopExit
  | 0 => ([], LoopExit.fuelOut)
  | fuel + 1 =>
    match interruptedAt env i with
    | some p =>
      if p = IPoint.beforeRead then ([], LoopExit.userStop)
      else if env.readOk i then (interruptTail env i p, LoopExit.userStop)
      else ([Event.read i false, Event.msg failMessage], LoopExit.readFail)
    | none =>
      if env.readOk i then
        let r := loop env (i + 1) fuel
        (iterEvents env i ++ r.1, r.2)
      else ([Event.read i false, Event.msg failMessage], LoopExit.readFail)

/-- Events of the startup sequence on the successful-open path
(lines 10, 18, 20): open the stream, create the output directory,
print the startup message. -/
def preEvents : List Event :=
  [Event.openStream stream_url, Event.mkdirs save_dir, Event.msg startupMessage]

/-- One run of the whole script.  On open failure the script prints an
error and calls `exit()` (status 0) without creating the directory,
entering the loop, or releasing the handle.  Otherwise the loop runs; a
read failure or a caught `KeyboardInterrupt` falls through to
`cap.release()` and `cv2.destroyAllWindows()` (lines 41-42) and the
process ends with status 0. -/
def runProgram (env : Env) (fuel : Nat) : RunResult :=
  if env.isOpened then
    let r := loop env 0 fuel
    match r.2 with
    | LoopExit.readFail =>
        ⟨preEvents ++ r.1 ++ [Event.release, Event.destroyAll], Outcome.stoppedRead, 0⟩
    | LoopExit.userStop =>
        ⟨preEvents ++ r.1 ++ [Event.msg stopMessage, Event.release, Event.destroyAll],
          Outcome.stoppedUser, 0⟩
    | LoopExit.fuelOut => ⟨preEvents ++ r.1, Outcome.running, 0⟩
  else ⟨[Event.openStream stream_url, Event.msg openErrorMessage], Outcome.failedOpen, 0⟩

/-! ### Trace observations -/

/-- Whether an event is a file save. -/
def isSaveEv : Event → Bool
  | Event.save _ => true
  | _ => false

/-- Whether an event is a successful frame read. -/
def isReadOkEv : Event → Bool
  | Event.read _ true => true
  | _ => false

/-- Whether an event is a frame read (successful or not). -/
def isReadEv : Event → Bool
  | Event.read _ _ => true
  | _ => false

/-- Whether an event is the release of the stream handle. -/
def isReleaseEv : Event → Bool
  | Event.release => true
  | _ => false

/-- Whether an event is an attempt to open the stream. -/
def isOpenEv : Event → Bool
  | Event.openStream _ => true
  | _ => false

/-- Number of file saves in a trace. -/
def countSaves (l : List Event) : Nat := l.countP isSaveEv

/-- Number of successful reads in a trace. -/
def countReadsOk (l : List Event) : Nat := l.countP isReadOkEv

/-- Number of reads in a trace. -/
def countReads (l : List Event) : Nat := l.countP isReadEv

/-- Number of stream-handle releases in a trace. -/
def countRelease (l : List Event) : Nat := l.countP isReleaseEv

/-- Number of stream-open attempts in a trace. -/
def countOpens (l : List Event) : Nat := l.countP isOpenEv

/-- The path of a save event, if the event is one. -/
def savePathOf : Event → Option String
  | Event.save p => some p
  | _ => none

/-- The paths written by a trace, in order; this is also the set of files
that exist after the trace, since the script never deletes a file. -/
def savedPaths (l : List Event) : List String := l.filterMap savePathOf

/-- Events of `m` consecutive complete successful iterations starting at
iteration `i`. -/
def iterBlock (env : Env) (i : Nat) : Nat → List Event
  | 0 => []
  | m + 1 => iterEvents env i ++ iterBlock env (i + 1) m

/-- A trace is balanced when, at every point (after every prefix), the
number of saves never exceeds the number of successful reads and lags it
by at most one (the lag of one occurs only between a read and its save). -/
def Balanced (l : List Event) : Prop :=
  ∀ n, countSaves (l.take n) ≤ countReadsOk (l.take n)
    ∧ countReadsOk (l.take n) ≤ countSaves (l.take n) + 1

/-- A fixed concrete timestamp for concrete runs. -/
def dt0 : DateTime := ⟨2026, 1, 2, 3, 4, 5⟩

/-- A world in which the stream does not open. -/
def badEnv : Env := ⟨false, fun _ => true, fun _ => dt0, none⟩

/-- A world in which the stream opens, every read succeeds, and no
interrupt arrives (runs are truncated only by fuel). -/
def allOkEnv : Env := ⟨true, fun _ => true, fun _ => dt0, none⟩

/-- A world in which the stream opens, the first read succeeds and the
second read fails; no interrupt. -/
def failAt1Env : Env := ⟨true, fun i => decide (i < 1), fun _ => dt0, none⟩

/-- A world in which the stream opens, reads 0-2 succeed and read 3
fails, with a clock that advances every iteration; no interrupt. -/
def clockEnv : Env := ⟨true, fun i => decide (i < 3), fun i => ⟨2026, 1, 2, 3, 4, i⟩, none⟩

/-- A world in which the stream opens, every read succeeds, and Ctrl+C
arrives during the sleep of iteration 1. -/
def sleepIntEnv : Env := ⟨true, fun _ => true, fun _ => dt0, some (1, IPoint.duringSleep)⟩

/-! ### Lemmas about the timestamp format -/

lemma digits_length_le {n w : Nat} (h : n < 10 ^ w) : (Nat.digits 10 n).length ≤ w := by
  rcases Nat.eq_zero_or_pos n with h0 | h0
  · subst h0; simp
  · rw [Nat.digits_len 10 n (by norm_num) (Nat.pos_iff_ne_zero.mp h0)]
    have hl := Nat.log_lt_of_lt_pow (Nat.pos_iff_ne_zero.mp h0) h
    omega

lemma padDigits_length {w n : Nat} (h : n < 10 ^ w) : (padDigits w n).length = w := by
  have hle := digits_length_le h
  simp only [padDigits, List.length_append, List.length_replicate, List.length_reverse]
  omega

lemma padDigits_lt {w n : Nat} : ∀ d ∈ padDigits w n, d < 10 := by
  intro d hd
  rcases List.mem_append.mp hd with h | h
  · have := List.eq_of_mem_replicate h; omega
  · exact Nat.digits_lt_base (by norm_num) (List.mem_reverse.mp h)

lemma undigits_append_replicate (k : Nat) (l : List Nat) :
    undigits (List.replicate k 0 ++ l) = undigits l := by
  induction k with
  | zero => simp
  | succ k ih =>
    simp only [undigits, List.replicate_succ, List.cons_append, List.foldl_cons] at ih ⊢
    simpa using ih

lemma foldr_eq_ofDigits (l : List Nat) :
    l.foldr (fun d a => 10 * a + d) 0 = Nat.ofDigits 10 l := by
  induction l with
  | nil => simp [Nat.ofDigits]
  | cons d t ih => simp [Nat.ofDigits_cons, ih]; ring

lemma undigits_padDigits (w n : Nat) : undigits (padDigits w n) = n := by
  unfold padDigits
  rw [undigits_append_replicate]
  show ((Nat.digits 10 n).reverse).foldl (fun a d => 10 * a + d) 0 = n
  rw [List.foldl_reverse]
  calc (Nat.digits 10 n).foldr (fun d a => 10 * a + d) 0
      = Nat.ofDigits 10 (Nat.digits 10 n) := foldr_eq_ofDigits _
    _ = n := Nat.ofDigits_digits 10 n

lemma padDigits_append_inj {w a b : Nat} (ha : a < 10 ^ w) (hb : b < 10 ^ w)
    {s t : List Nat} (h : padDigits w a ++ s = padDigits w b ++ t) : a = b ∧ s = t := by
  have hlen : (padDigits w a).length = (padDigits w b).length := by
    rw [padDigits_length ha, padDigits_length hb]
  obtain ⟨h1, h2⟩ := List.append_inj h hlen
  refine ⟨?_, h2⟩
  have hv := congrArg undigits h1
  rwa [undigits_padDigits, undigits_padDigits] at hv

lemma digitChar_inj : ∀ a, a < 10 → ∀ b, b < 10 → digitChar a = digitChar b → a = b := by
  decide

lemma map_digitChar_inj :
    ∀ l1 l2 : List Nat, (∀ d ∈ l1, d < 10) → (∀ d ∈ l2, d < 10) →
      l1.map digitChar = l2.map digitChar → l1 = l2 := by
  intro l1
  induction l1 with
  | nil => intro l2 _ _ h; cases l2 <;> simp_all
  | cons a t ih =>
    intro l2 h1 h2 h
    cases l2 with
    | nil => simp at h
    | cons b t2 =>
      simp only [List.map_cons, List.cons.injEq] at h
      have hab := digitChar_inj a (h1 a (by simp)) b (h2 b (by simp)) h.1
      subst hab
      have ht := ih t2 (fun d hd => h1 d (by simp [hd])) (fun d hd => h2 d (by simp [hd])) h.2
      simp [ht]

lemma dateDigits_lt (d : DateTime) : ∀ x ∈ dateDigits d, x < 10 := by
  intro x hx
  rcases List.mem_append.mp hx with h | h
  · exact padDigits_lt x h
  · rcases List.mem_append.mp h with h | h <;> exact padDigits_lt x h

lemma timeDigits_lt (d : DateTime) : ∀ x ∈ timeDigits d, x < 10 := by
  intro x hx
  rcases List.mem_append.mp hx with h | h
  · exact padDigits_lt x h
  · rcases List.mem_append.mp h with h | h <;> exact padDigits_lt x h

lemma strftime_inj {d1 d2 : DateTime} (h1 : d1.Valid) (h2 : d2.Valid)
    (h : strftimeYmdHMS d1 = strftimeYmdHMS d2) : d1 = d2 := by
  obtain ⟨hy1, hmo11, hmo12, hdy11, hdy12, hh1, hmi1, hs1⟩ := h1
  obtain ⟨hy2, hmo21, hmo22, hdy21, hdy22, hh2, hmi2, hs2⟩ := h2
  have hy1p : d1.year < 10 ^ 4 := lt_of_lt_of_le hy1 (by norm_num)
  have hy2p : d2.year < 10 ^ 4 := lt_of_lt_of_le hy2 (by norm_num)
  have hmo1p : d1.month < 10 ^ 2 := lt_of_le_of_lt hmo12 (by norm_num)
  have hmo2p : d2.month < 10 ^ 2 := lt_of_le_of_lt hmo22 (by norm_num)
  have hdy1p : d1.day < 10 ^ 2 := lt_of_le_of_lt hdy12 (by norm_num)
  have hdy2p : d2.day < 10 ^ 2 := lt_of_le_of_lt hdy22 (by norm_num)
  have hh1p : d1.hour < 10 ^ 2 := lt_of_lt_of_le hh1 (by norm_num)
  have hh2p : d2.hour < 10 ^ 2 := lt_of_lt_of_le hh2 (by norm_num)
  have hmi1p : d1.minute < 10 ^ 2 := lt_of_lt_of_le hmi1 (by norm_num)
  have hmi2p : d2.minute < 10 ^ 2 := lt_of_lt_of_le hmi2 (by norm_num)
  have hs1p : d1.second < 10 ^ 2 := lt_of_lt_of_le hs1 (by norm_num)
  have hs2p : d2.second < 10 ^ 2 := lt_of_lt_of_le hs2 (by norm_num)
  unfold strftimeYmdHMS at h
  have hdata : (dateDigits d1).map digitChar ++ '_' :: (timeDigits d1).map digitChar
      = (dateDigits d2).map digitChar ++ '_' :: (timeDigits d2).map digitChar := by
    injection h
  have hlen : ((dateDigits d1).map digitChar).length = ((dateDigits d2).map digitChar).length := by
    simp only [List.length_map, dateDigits, List.length_append,
      padDigits_length hy1p, padDigits_length hy2p, padDigits_length hmo1p,
      padDigits_length hmo2p, padDigits_length hdy1p, padDigits_length hdy2p]
  obtain ⟨hdate, hrest⟩ := List.append_inj hdata hlen
  have htime : (timeDigits d1).map digitChar = (timeDigits d2).map digitChar := by
    injection hrest
  have hdd : dateDigits d1 = dateDigits d2 :=
    map_digitChar_inj _ _ (dateDigits_lt d1) (dateDigits_lt d2) hdate
  have htd : timeDigits d1 = timeDigits d2 :=
    map_digitChar_inj _ _ (timeDigits_lt d1) (timeDigits_lt d2) htime
  unfold dateDigits at hdd
  obtain ⟨hyear, hdd1⟩ := padDigits_append_inj hy1p hy2p hdd
  obtain ⟨hmonth, hdd2⟩ := padDigits_append_inj hmo1p hmo2p hdd1
  have hday : d1.day = d2.day := by
    have hv := congrArg undigits hdd2
    rwa [undigits_padDigits, undigits_padDigits] at hv
  unfold timeDigits at htd
  obtain ⟨hhour, htd1⟩ := padDigits_append_inj hh1p hh2p htd
  obtain ⟨hminute, htd2⟩ := padDigits_append_inj hmi1p hmi2p htd1
  have hsecond : d1.second = d2.second := by
    have hv := congrArg undigits htd2
    rwa [undigits_padDigits, undigits_padDigits] at hv
  cases d1; cases d2; simp_all

lemma filename_inj {d1 d2 : DateTime} (h1 : d1.Valid) (h2 : d2.Valid)
    (h : filename d1 = filename d2) : d1 = d2 := by
  unfold filename at h
  have hdata := congrArg String.data h
  rw [String.data_append, String.data_append] at hdata
  exact strftime_inj h1 h2 (String.ext (List.append_inj' hdata rfl).1)

lemma filename_ne_of_timeKey_lt {d1 d2 : DateTime} (h1 : d1.Valid) (h2 : d2.Valid)
    (h : timeKey d1 < timeKey d2) : filename d1 ≠ filename d2 := by
  intro he
  have hd := filename_inj h1 h2 he
  rw [hd] at h
  exact lt_irrefl _ h

/-! ### Lemmas about paths -/

lemma digitChar_ne_slash : ∀ a, a < 10 → digitChar a ≠ '/' := by decide

lemma padDigits_ne_nil (w n : Nat) (hw : 0 < w) : padDigits w n ≠ [] := by
  apply List.ne_nil_of_length_pos
  simp only [padDigits, List.length_append, List.length_replicate, List.length_reverse]
  omega

lemma filename_head (d : DateTime) :
    ∃ c cs, (filename d).data = digitChar c :: cs ∧ c < 10 := by
  obtain ⟨c, cs0, hc⟩ := List.exists_cons_of_ne_nil (padDigits_ne_nil 4 d.year (by norm_num))
  have hmem : c ∈ padDigits 4 d.year := by rw [hc]; exact List.mem_cons_self _ _
  refine ⟨c, ?_, ?_, padDigits_lt c hmem⟩
  · exact ((cs0 ++ (padDigits 2 d.month ++ padDigits 2 d.day)).map digitChar
      ++ '_' :: (timeDigits d).map digitChar) ++ (".jpg").data
  · show (strftimeYmdHMS d ++ ".jpg").data = _
    rw [String.data_append]
    simp [strftimeYmdHMS, dateDigits, hc]

lemma filepath_eq (env : Env) (i : Nat) :
    filepath env i = save_dir ++ "/" ++ filename (env.now i) := by
  obtain ⟨c, cs, hdat, hc⟩ := filename_head (env.now i)
  unfold filepath os_path_join
  rw [if_neg, if_neg]
  · decide
  · rw [hdat]
    simp only [List.head?_cons, Option.some.injEq]
    exact digitChar_ne_slash c hc

lemma filepath_ne {env : Env} {i j : Nat}
    (h : filename (env.now i) ≠ filename (env.now j)) : filepath env i ≠ filepath env j := by
  rw [filepath_eq, filepath_eq]
  intro he
  apply h
  have hdata := congrArg String.data he
  rw [String.data_append, String.data_append, String.data_append, String.data_append] at hdata
  exact String.ext (List.append_inj hdata rfl).2

/-! ### Structural lemmas about the loop -/

lemma interruptedAt_none {env : Env} (h : env.interrupt = none) (i : Nat) :
    interruptedAt env i = none := by
  simp [interruptedAt, h]

lemma loop_succ_of_ok {env : Env} {i : Nat} (fuel : Nat)
    (hni : interruptedAt env i = none) (hr : env.readOk i = true) :
    loop env i (fuel + 1)
      = (iterEvents env i ++ (loop env (i + 1) fuel).1, (loop env (i + 1) fuel).2) := by
  simp [loop, hni, hr]

lemma loop_fail {env : Env} {i : Nat} (fuel : Nat)
    (hni : interruptedAt env i = none) (hr : env.readOk i = false) :
    loop env i (fuel + 1) = ([Event.read i false, Event.msg failMessage], LoopExit.readFail) := by
  simp [loop, hni, hr]

lemma loop_interrupted {env : Env} {i : Nat} {p : IPoint} (fuel : Nat)
    (hip : interruptedAt env i = some p) (hr : env.readOk i = true) :
    loop env i (fuel + 1) = (interruptTail env i p, LoopExit.userStop) := by
  by_cases hp : p = IPoint.beforeRead
  · subst hp; simp [loop, hip, interruptTail]
  · simp [loop, hip, hp, hr]

lemma loop_steps (env : Env) (m : Nat) :
    ∀ i f, (∀ j, j < m → env.readOk (i + j) = true)
      → (∀ j, j < m → interruptedAt env (i + j) = none)
      → loop env i (m + f)
          = (iterBlock env i m ++ (loop env (i + m) f).1, (loop env (i + m) f).2) := by
  induction m with
  | zero => intro i f _ _; simp [iterBlock]
  | succ m ih =>
    intro i f hr hni
    have hr0 : env.readOk i = true := by simpa using hr 0 (by omega)
    have hni0 : interruptedAt env i = none := by simpa using hni 0 (by omega)
    have hstep := loop_succ_of_ok (m + f) hni0 hr0
    have harith : m + 1 + f = (m + f) + 1 := by omega
    rw [harith, hstep]
    have ihs := ih (i + 1) f
      (fun j hj => by have := hr (j + 1) (by omega); simpa [Nat.add_assoc, Nat.add_comm 1 j] using this)
      (fun j hj => by have := hni (j + 1) (by omega); simpa [Nat.add_assoc, Nat.add_comm 1 j] using this)
    rw [ihs]
    have harith2 : i + 1 + m = i + (m + 1) := by omega
    simp [iterBlock, harith2]

lemma iterBlock_succ_right (env : Env) (m : Nat) :
    ∀ i, iterBlock env i (m + 1) = iterBlock env i m ++ iterEvents env (i + m) := by
  induction m with
  | zero => intro i; simp [iterBlock]
  | succ m ih =>
    intro i
    show iterEvents env i ++ iterBlock env (i + 1) (m + 1) = _
    rw [ih (i + 1)]
    have : i + 1 + m = i + (m + 1) := by omega
    simp [iterBlock, this]

/-! ### Counting lemmas -/

lemma countSaves_append (a b : List Event) : countSaves (a ++ b) = countSaves a + countSaves b :=
  List.countP_append _ _ _

lemma countReadsOk_append (a b : List Event) :
    countReadsOk (a ++ b) = countReadsOk a + countReadsOk b :=
  List.countP_append _ _ _

lemma countReads_append (a b : List Event) : countReads (a ++ b) = countReads a + countReads b :=
  List.countP_append _ _ _

lemma countRelease_append (a b : List Event) :
    countRelease (a ++ b) = countRelease a + countRelease b :=
  List.countP_append _ _ _

lemma countOpens_append (a b : List Event) : countOpens (a ++ b) = countOpens a + countOpens b :=
  List.countP_append _ _ _

lemma savedPaths_append (a b : List Event) : savedPaths (a ++ b) = savedPaths a ++ savedPaths b :=
  List.filterMap_append _ _ _

lemma countSaves_iterEvents (env : Env) (i : Nat) : countSaves (iterEvents env i) = 1 := rfl

lemma countReadsOk_iterEvents (env : Env) (i : Nat) : countReadsOk (iterEvents env i) = 1 := rfl

lemma countReads_iterEvents (env : Env) (i : Nat) : countReads (iterEvents env i) = 1 := rfl

lemma countRelease_iterEvents (env : Env) (i : Nat) : countRelease (iterEvents env i) = 0 := rfl

lemma countOpens_iterEvents (env : Env) (i : Nat) : countOpens (iterEvents env i) = 0 := rfl

lemma savedPaths_iterEvents (env : Env) (i : Nat) :
    savedPaths (iterEvents env i) = [filepath env i] := rfl

lemma countSaves_iterBlock (env : Env) (m : Nat) :
    ∀ i, countSaves (iterBlock env i m) = m := by
  induction m with
  | zero => intro i; rfl
  | succ m ih =>
    intro i
    show countSaves (iterEvents env i ++ iterBlock env (i + 1) m) = m + 1
    rw [countSaves_append, countSaves_iterEvents, ih (i + 1)]
    omega

lemma countReadsOk_iterBlock (env : Env) (m : Nat) :
    ∀ i, countReadsOk (iterBlock env i m) = m := by
  induction m with
  | zero => intro i; rfl
  | succ m ih =>
    intro i
    show countReadsOk (iterEvents env i ++ iterBlock env (i + 1) m) = m + 1
    rw [countReadsOk_append, countReadsOk_iterEvents, ih (i + 1)]
    omega

lemma countRelease_iterBlock (env : Env) (m : Nat) :
    ∀ i, countRelease (iterBlock env i m) = 0 := by
  induction m with
  | zero => intro i; rfl
  | succ m ih =>
    intro i
    show countRelease (iterEvents env i ++ iterBlock env (i + 1) m) = 0
    rw [countRelease_append, countRelease_iterEvents, ih (i + 1)]

lemma countOpens_iterBlock (env : Env) (m : Nat) :
    ∀ i, countOpens (iterBlock env i m) = 0 := by
  induction m with
  | zero => intro i; rfl
  | succ m ih =>
    intro i
    show countOpens (iterEvents env i ++ iterBlock env (i + 1) m) = 0
    rw [countOpens_append, countOpens_iterEvents, ih (i + 1)]

lemma savedPaths_iterBlock (env : Env) (m : Nat) :
    ∀ i, savedPaths (iterBlock env i m) = (List.range m).map fun j => filepath env (i + j) := by
  induction m with
  | zero => intro i; rfl
  | succ m ih =>
    intro i
    show savedPaths (iterEvents env i ++ iterBlock env (i + 1) m) = _
    rw [savedPaths_append, savedPaths_iterEvents, ih (i + 1), List.range_succ_eq_map]
    simp only [List.map_cons, List.map_map, Function.comp, Nat.add_zero, List.cons_append,
      List.nil_append]
    have hfun : (fun j => filepath env (i + 1 + j)) = fun j => filepath env (i + Nat.succ j) := by
      funext j
      have : i + 1 + j = i + Nat.succ j := by omega
      rw [this]
    rw [hfun]
    rfl

lemma countRelease_interruptTail (env : Env) (i : Nat) (p : IPoint) :
    countRelease (interruptTail env i p) = 0 := by
  cases p <;> rfl

lemma countOpens_interruptTail (env : Env) (i : Nat) (p : IPoint) :
    countOpens (interruptTail env i p) = 0 := by
  cases p <;> rfl

lemma savedPaths_interruptTail_duringSleep (env : Env) (i : Nat) :
    savedPaths (interruptTail env i IPoint.duringSleep) = [filepath env i] := rfl

lemma countRelease_loop (env : Env) : ∀ f i, countRelease (loop env i f).1 = 0 := by
  intro f
  induction f with
  | zero => intro i; rfl
  | succ f ih =>
    intro i
    cases hip : interruptedAt env i with
    | none =>
      by_cases hr : env.readOk i = true
      · rw [loop_succ_of_ok f hip hr]
        show countRelease (iterEvents env i ++ (loop env (i + 1) f).1) = 0
        rw [countRelease_append, countRelease_iterEvents, ih (i + 1)]
      · rw [loop_fail f hip (by simpa using hr)]
        rfl
    | some p =>
      by_cases hr : env.readOk i = true
      · rw [loop_interrupted f hip hr]
        exact countRelease_interruptTail env i p
      · by_cases hp : p = IPoint.beforeRead
        · subst hp; simp [loop, hip]; rfl
        · have hrf : env.readOk i = false := by simpa using hr
          simp [loop, hip, hp, hrf]; rfl

lemma countOpens_loop (env : Env) : ∀ f i, countOpens (loop env i f).1 = 0 := by
  intro f
  induction f with
  | zero => intro i; rfl
  | succ f ih =>
    intro i
    cases hip : interruptedAt env i with
    | none =>
      by_cases hr : env.readOk i = true
      · rw [loop_succ_of_ok f hip hr]
        show countOpens (iterEvents env i ++ (loop env (i + 1) f).1) = 0
        rw [countOpens_append, countOpens_iterEvents, ih (i + 1)]
      · rw [loop_fail f hip (by simpa using hr)]
        rfl
    | some p =>
      by_cases hr : env.readOk i = true
      · rw [loop_interrupted f hip hr]
        exact countOpens_interruptTail env i p
      · by_cases hp : p = IPoint.beforeRead
        · subst hp; simp [loop, hip]; rfl
        · have hrf : env.readOk i = false := by simpa using hr
          simp [loop, hip, hp, hrf]; rfl


/-! ### Run characterizations -/

lemma loop_none_shape (env : Env) (hint : env.interrupt = none) :
    ∀ f i, ∃ m t, (loop env i f).1 = iterBlock env i m ++ t
      ∧ countSaves t = 0 ∧ countReadsOk t = 0 := by
  intro f
  induction f with
  | zero => intro i; exact ⟨0, [], rfl, rfl, rfl⟩
  | succ f ih =>
    intro i
    by_cases hr : env.readOk i = true
    · obtain ⟨m, t, he, hs, hro⟩ := ih (i + 1)
      refine ⟨m + 1, t, ?_, hs, hro⟩
      rw [loop_succ_of_ok f (interruptedAt_none hint i) hr]
      show iterEvents env i ++ (loop env (i + 1) f).1 = iterBlock env i (m + 1) ++ t
      rw [he]
      simp [iterBlock]
    · refine ⟨0, [Event.read i false, Event.msg failMessage], ?_, rfl, rfl⟩
      rw [loop_fail f (interruptedAt_none hint i) (by simpa using hr)]
      rfl

lemma loop_readFail_eq {env : Env} {k : Nat} (f : Nat) (hint : env.interrupt = none)
    (hr : ∀ j, j < k → env.readOk j = true) (hk : env.readOk k = false) :
    loop env 0 (k + (f + 1))
      = (iterBlock env 0 k ++ [Event.read k false, Event.msg failMessage],
          LoopExit.readFail) := by
  have hsteps := loop_steps env k 0 (f + 1)
    (fun j hj => by simpa using hr j hj)
    (fun j _ => interruptedAt_none hint _)
  rw [hsteps]
  simp only [Nat.zero_add]
  rw [loop_fail f (interruptedAt_none hint k) hk]

lemma runProgram_readFail {env : Env} {fuel k : Nat} (ho : env.isOpened = true)
    (hint : env.interrupt = none) (hr : ∀ j, j < k → env.readOk j = true)
    (hk : env.readOk k = false) (hf : k < fuel) :
    runProgram env fuel
      = ⟨preEvents ++ (iterBlock env 0 k ++ [Event.read k false, Event.msg failMessage])
          ++ [Event.release, Event.destroyAll], Outcome.stoppedRead, 0⟩ := by
  have hfe : fuel = k + (fuel - k - 1 + 1) := by omega
  have hloop : loop env 0 fuel
      = (iterBlock env 0 k ++ [Event.read k false, Event.msg failMessage],
          LoopExit.readFail) := by
    rw [hfe]
    exact loop_readFail_eq (fuel - k - 1) hint hr hk
  unfold runProgram
  rw [if_pos ho, hloop]

lemma runProgram_userStop {env : Env} {fuel k : Nat} {p : IPoint} (ho : env.isOpened = true)
    (hintr : env.interrupt = some (k, p)) (hr : ∀ j, j ≤ k → env.readOk j = true)
    (hf : k < fuel) :
    runProgram env fuel
      = ⟨preEvents ++ (iterBlock env 0 k ++ interruptTail env k p)
          ++ [Event.msg stopMessage, Event.release, Event.destroyAll],
          Outcome.stoppedUser, 0⟩ := by
  have hfe : fuel = k + (fuel - k - 1 + 1) := by omega
  have hloop : loop env 0 fuel = (iterBlock env 0 k ++ interruptTail env k p,
      LoopExit.userStop) := by
    rw [hfe]
    have hsteps := loop_steps env k 0 (fuel - k - 1 + 1)
      (fun j hj => by simpa using hr j (by omega))
      (fun j hj => by
        simp only [interruptedAt, hintr, Nat.zero_add]
        have : k ≠ j := by omega
        simp [this])
    rw [hsteps]
    simp only [Nat.zero_add]
    have hip : interruptedAt env k = some p := by simp [interruptedAt, hintr]
    rw [loop_interrupted (fuel - k - 1) hip (hr k (le_refl k))]
  unfold runProgram
  rw [if_pos ho, hloop]

lemma runProgram_prefix {env : Env} {fuel m : Nat} (ho : env.isOpened = true)
    (hint : env.interrupt = none) (hr : ∀ j, j < m → env.readOk j = true)
    (hf : m ≤ fuel) :
    ∃ rest, (runProgram env fuel).events = preEvents ++ (iterBlock env 0 m ++ rest) := by
  have hfe : fuel = m + (fuel - m) := by omega
  have hsteps := loop_steps env m 0 (fuel - m)
    (fun j hj => by simpa using hr j hj)
    (fun j _ => interruptedAt_none hint _)
  rw [Nat.zero_add] at hsteps
  rw [← hfe] at hsteps
  unfold runProgram
  rw [if_pos ho, hsteps]
  cases hx : (loop env m (fuel - m)).2 with
  | readFail =>
      exact ⟨(loop env m (fuel - m)).1 ++ [Event.release, Event.destroyAll], by simp⟩
  | userStop =>
      exact ⟨(loop env m (fuel - m)).1
        ++ [Event.msg stopMessage, Event.release, Event.destroyAll], by simp⟩
  | fuelOut =>
      exact ⟨(loop env m (fuel - m)).1, by simp⟩

lemma runProgram_failedOpen {env : Env} (fuel : Nat) (ho : env.isOpened = false) :
    runProgram env fuel
      = ⟨[Event.openStream stream_url, Event.msg openErrorMessage], Outcome.failedOpen, 0⟩ := by
  unfold runProgram
  rw [if_neg (by simp [ho])]

lemma runProgram_exitCode (env : Env) (fuel : Nat) : (runProgram env fuel).exitCode = 0 := by
  unfold runProgram
  by_cases ho : env.isOpened = true
  · rw [if_pos ho]
    cases hx : (loop env 0 fuel).2 <;> simp [hx]
  · rw [if_neg ho]

lemma countRelease_run_terminal {env : Env} {fuel : Nat}
    (h : (runProgram env fuel).outcome = Outcome.stoppedRead
      ∨ (runProgram env fuel).outcome = Outcome.stoppedUser) :
    countRelease (runProgram env fuel).events = 1 := by
  by_cases ho : env.isOpened = true
  · unfold runProgram at h ⊢
    rw [if_pos ho] at h ⊢
    rcases hx : loop env 0 fuel with ⟨evs, ex⟩
    rw [hx] at h
    have hevs : countRelease evs = 0 := by
      have hc := countRelease_loop env fuel 0
      rw [hx] at hc
      exact hc
    cases ex with
    | readFail =>
        show countRelease (preEvents ++ evs ++ [Event.release, Event.destroyAll]) = 1
        rw [countRelease_append, countRelease_append, hevs]
        rfl
    | userStop =>
        show countRelease (preEvents ++ evs
          ++ [Event.msg stopMessage, Event.release, Event.destroyAll]) = 1
        rw [countRelease_append, countRelease_append, hevs]
        rfl
    | fuelOut =>
        exact absurd h (by simp)
  · have ho2 : env.isOpened = false := by simpa using ho
    rw [runProgram_failedOpen fuel ho2] at h
    simp at h


/-! ### Balance of reads and saves along a trace -/

lemma balanced_of_zero {l : List Event} (hs : countSaves l = 0) (hr : countReadsOk l = 0) :
    Balanced l := by
  intro n
  have h1 : countSaves (l.take n) = 0 := by
    have := List.Sublist.countP_le isSaveEv (List.take_sublist n l)
    unfold countSaves at hs ⊢
    omega
  have h2 : countReadsOk (l.take n) = 0 := by
    have := List.Sublist.countP_le isReadOkEv (List.take_sublist n l)
    unfold countReadsOk at hr ⊢
    omega
  omega

lemma balanced_append {A B : List Event} (hA : Balanced A)
    (htot : countSaves A = countReadsOk A) (hB : Balanced B) : Balanced (A ++ B) := by
  intro n
  by_cases hn : n ≤ A.length
  · rw [List.take_append_of_le_length hn]
    exact hA n
  · rw [List.take_append_eq_append_take, List.take_of_length_le (by omega),
      countSaves_append, countReadsOk_append]
    obtain ⟨hb1, hb2⟩ := hB (n - A.length)
    omega

lemma balanced_iterEvents (env : Env) (i : Nat) : Balanced (iterEvents env i) := by
  intro n
  rcases n with _ | _ | _ | _ | n <;>
    simp [iterEvents, countSaves, countReadsOk, isSaveEv, isReadOkEv, List.countP_cons,
      List.take_succ_cons]

lemma balanced_iterBlock (env : Env) (m : Nat) : ∀ i, Balanced (iterBlock env i m) := by
  induction m with
  | zero => intro i; exact balanced_of_zero rfl rfl
  | succ m ih =>
    intro i
    show Balanced (iterEvents env i ++ iterBlock env (i + 1) m)
    exact balanced_append (balanced_iterEvents env i) rfl (ih (i + 1))

lemma balanced_run {env : Env} (fuel : Nat) (hint : env.interrupt = none) :
    Balanced (runProgram env fuel).events := by
  obtain ⟨m, t, he, hs, hro⟩ := loop_none_shape env hint fuel 0
  have hloopBal : Balanced (loop env 0 fuel).1 := by
    rw [he]
    exact balanced_append (balanced_iterBlock env m 0)
      (by rw [countSaves_iterBlock, countReadsOk_iterBlock]) (balanced_of_zero hs hro)
  have hloopTot : countSaves (loop env 0 fuel).1 = countReadsOk (loop env 0 fuel).1 := by
    rw [he, countSaves_append, countReadsOk_append, countSaves_iterBlock,
      countReadsOk_iterBlock, hs, hro]
  unfold runProgram
  by_cases ho : env.isOpened = true
  · rw [if_pos ho]
    rcases hx : loop env 0 fuel with ⟨evs, ex⟩
    rw [hx] at hloopBal hloopTot
    have hloopBal2 : Balanced evs := hloopBal
    have hloopTot2 : countSaves evs = countReadsOk evs := hloopTot
    have hpreBal : Balanced preEvents := balanced_of_zero rfl rfl
    have hfrontBal : Balanced (preEvents ++ evs) :=
      balanced_append hpreBal rfl hloopBal2
    have hfrontTot : countSaves (preEvents ++ evs) = countReadsOk (preEvents ++ evs) := by
      rw [countSaves_append, countReadsOk_append]
      have h0 : countSaves preEvents = 0 := rfl
      have h1 : countReadsOk preEvents = 0 := rfl
      omega
    cases ex with
    | readFail =>
        exact balanced_append hfrontBal hfrontTot (balanced_of_zero rfl rfl)
    | userStop =>
        exact balanced_append hfrontBal hfrontTot (balanced_of_zero rfl rfl)
    | fuelOut => exact hfrontBal
  · rw [if_neg ho]
    exact balanced_of_zero rfl rfl

/-! ### Saved paths of whole runs -/

lemma savedPaths_preEvents : savedPaths preEvents = [] := rfl

lemma countOpens_preEvents : countOpens preEvents = 1 := rfl

lemma countRelease_preEvents : countRelease preEvents = 0 := rfl

lemma savedPaths_run_readFail {env : Env} {fuel k : Nat} (ho : env.isOpened = true)
    (hint : env.interrupt = none) (hr : ∀ j, j < k → env.readOk j = true)
    (hk : env.readOk k = false) (hf : k < fuel) :
    savedPaths (runProgram env fuel).events = (List.range k).map fun j => filepath env j := by
  rw [runProgram_readFail ho hint hr hk hf]
  show savedPaths (preEvents ++ (iterBlock env 0 k ++ _) ++ _) = _
  rw [savedPaths_append, savedPaths_append, savedPaths_append, savedPaths_preEvents,
    savedPaths_iterBlock]
  simp [savedPaths, savePathOf]

lemma runProgram_events_pre {env : Env} (fuel : Nat) (ho : env.isOpened = true) :
    ∃ rest, (runProgram env fuel).events = preEvents ++ rest := by
  unfold runProgram
  rw [if_pos ho]
  rcases loop env 0 fuel with ⟨evs, ex⟩
  cases ex with
  | readFail => exact ⟨evs ++ [Event.release, Event.destroyAll], by simp⟩
  | userStop =>
      exact ⟨evs ++ [Event.msg stopMessage, Event.release, Event.destroyAll], by simp⟩
  | fuelOut => exact ⟨evs, rfl⟩

/-! ### Claims -/

/-- C1 counterexample: the claim asserts that every terminal path, the
stream-open-failure path included, reaches a Cleanup step that releases
the Stream Handle.  In the world where the stream does not open, the run
terminates with outcome `failedOpen` and its trace contains no release
event: `exit()` on line 14 fires before the `try` block, so line 41
(`cap.release()`) is never reached. -/
theorem claim_C1_counterexample :
    (runProgram badEnv 5).outcome = Outcome.failedOpen
    ∧ countRelease (runProgram badEnv 5).events = 0 := by decide

/-- C1 (amended): on every terminal path of a run that enters the capture
loop (frame-read failure or user cancellation) the program reaches the
single Cleanup step and releases the Stream Handle exactly once, and no
failure propagates out as a crash (every terminal path is a normal exit
with status 0); on stream-open failure the program prints an error and
exits (also without a crash), but without a release step. -/
theorem claim_C1 (env env2 : Env) (fuel fuel2 : Nat)
    (hterm : (runProgram env fuel).outcome = Outcome.stoppedRead
      ∨ (runProgram env fuel).outcome = Outcome.stoppedUser)
    (h2 : env2.isOpened = false) :
    countRelease (runProgram env fuel).events = 1
    ∧ (runProgram env fuel).exitCode = 0
    ∧ (runProgram env2 fuel2).outcome = Outcome.failedOpen
    ∧ countRelease (runProgram env2 fuel2).events = 0
    ∧ (runProgram env2 fuel2).exitCode = 0 :=
  ⟨countRelease_run_terminal hterm, runProgram_exitCode env fuel,
    by rw [runProgram_failedOpen fuel2 h2],
    by rw [runProgram_failedOpen fuel2 h2]; rfl,
    runProgram_exitCode env2 fuel2⟩

/-- C1 witness: a run whose second read fails releases the handle exactly
once and exits with status 0, while the non-opening world ends with
`failedOpen`, no release, and status 0. -/
theorem claim_C1_witness :
    countRelease (runProgram failAt1Env 5).events = 1
    ∧ (runProgram failAt1Env 5).exitCode = 0
    ∧ (runProgram badEnv 5).outcome = Outcome.failedOpen
    ∧ countRelease (runProgram badEnv 5).events = 0
    ∧ (runProgram badEnv 5).exitCode = 0 :=
  claim_C1 failAt1Env badEnv 5 5 (Or.inl (by decide)) rfl

/-- C2 counterexample: the claim asserts a non-zero exit status on
stream-open failure, but the code calls `exit()` with no argument, which
raises `SystemExit(None)` and terminates the process with status 0: in
the non-opening world the run ends with outcome `failedOpen`, performs
no read and no save, and its exit code is 0, not non-zero. -/
theorem claim_C2_counterexample :
    (runProgram badEnv 5).outcome = Outcome.failedOpen
    ∧ countReads (runProgram badEnv 5).events = 0
    ∧ countSaves (runProgram badEnv 5).events = 0
    ∧ (runProgram badEnv 5).exitCode = 0 := by decide

/-- C2 (amended): if the stream cannot be opened at startup, the program
reports an error and exits, with exit status 0 because `exit()` takes no
argument, before performing any capture iteration: the whole trace is the
open attempt followed by the error message, with no read, no save, no
saved path, and no output-directory creation. -/
theorem claim_C2 (env : Env) (fuel : Nat) (h : env.isOpened = false) :
    (runProgram env fuel).events = [Event.openStream stream_url, Event.msg openErrorMessage]
    ∧ (runProgram env fuel).outcome = Outcome.failedOpen
    ∧ (runProgram env fuel).exitCode = 0
    ∧ countReads (runProgram env fuel).events = 0
    ∧ countSaves (runProgram env fuel).events = 0
    ∧ savedPaths (runProgram env fuel).events = []
    ∧ Event.mkdirs save_dir ∉ (runProgram env fuel).events := by
  rw [runProgram_failedOpen fuel h]
  exact ⟨rfl, rfl, rfl, rfl, rfl, rfl, by decide⟩

/-- C2 witness: the amended claim at the concrete non-opening world. -/
theorem claim_C2_witness :
    (runProgram badEnv 7).events = [Event.openStream stream_url, Event.msg openErrorMessage]
    ∧ (runProgram badEnv 7).outcome = Outcome.failedOpen
    ∧ (runProgram badEnv 7).exitCode = 0
    ∧ countReads (runProgram badEnv 7).events = 0
    ∧ countSaves (runProgram badEnv 7).events = 0
    ∧ savedPaths (runProgram badEnv 7).events = []
    ∧ Event.mkdirs save_dir ∉ (runProgram badEnv 7).events :=
  claim_C2 badEnv 7 rfl

/-- C3: if the read of (1-based) iteration `k` fails, the run terminates
with outcome `stoppedRead` and the read-failure message in its trace,
exactly `k - 1` files have been saved, the stream was opened exactly once
(no reconnection attempt appears anywhere in the trace), and the handle
is released exactly once. -/
theorem claim_C3 (env : Env) (fuel k : Nat) (hk1 : 1 ≤ k) (ho : env.isOpened = true)
    (hint : env.interrupt = none) (hr : ∀ j, j < k - 1 → env.readOk j = true)
    (hfail : env.readOk (k - 1) = false) (hf : k - 1 < fuel) :
    (runProgram env fuel).outcome = Outcome.stoppedRead
    ∧ Event.msg failMessage ∈ (runProgram env fuel).events
    ∧ (savedPaths (runProgram env fuel).events).length = k - 1
    ∧ countOpens (runProgram env fuel).events = 1
    ∧ countRelease (runProgram env fuel).events = 1 := by
  have hpaths := savedPaths_run_readFail ho hint hr hfail hf
  have hrun := runProgram_readFail ho hint hr hfail hf
  refine ⟨by rw [hrun], ?_, ?_, ?_, ?_⟩
  · rw [hrun]
    simp
  · rw [hpaths]
    simp
  · rw [hrun]
    show countOpens (preEvents ++ (iterBlock env 0 (k - 1) ++ _) ++ _) = 1
    rw [countOpens_append, countOpens_append, countOpens_preEvents,
      countOpens_append, countOpens_iterBlock]
    rfl
  · rw [hrun]
    show countRelease (preEvents ++ (iterBlock env 0 (k - 1) ++ _) ++ _) = 1
    rw [countRelease_append, countRelease_append, countRelease_preEvents,
      countRelease_append, countRelease_iterBlock]
    rfl

/-- C3 witness: in the world whose second read fails (1-based iteration
2), the run stops on the read failure with exactly one file saved, one
open attempt, and one release. -/
theorem claim_C3_witness :
    (runProgram failAt1Env 5).outcome = Outcome.stoppedRead
    ∧ Event.msg failMessage ∈ (runProgram failAt1Env 5).events
    ∧ (savedPaths (runProgram failAt1Env 5).events).length = 2 - 1
    ∧ countOpens (runProgram failAt1Env 5).events = 1
    ∧ countRelease (runProgram failAt1Env 5).events = 1 :=
  claim_C3 failAt1Env 5 2 (by omega) rfl rfl (by decide) rfl (by omega)

/-- C5: the interval actually applied between consecutive captures is the
60 seconds passed to `time.sleep` on line 36 (every successful iteration
ends with a sleep of 60 seconds), even though the startup message printed
on line 20 describes a 20-second interval. -/
theorem claim_C5 :
    sleep_seconds = 60
    ∧ startupMessage = "Capturing images every 20 seconds... Press Ctrl+C to stop."
    ∧ ∀ env i, (iterEvents env i).getLast? = some (Event.sleep 60) :=
  ⟨rfl, rfl, fun _ _ => rfl⟩

/-- C4: every successful loop iteration appears in the trace as the
consecutive segment: read the frame; save it under the path obtained by
joining the output directory with the filename computed from the current
wall-clock time formatted as `YYYYMMDD_HHMMSS.jpg` (a JPEG write, by the
`.jpg` extension); print the confirmation naming the saved path; then
sleep for the configured save interval (60 seconds) before the next
iteration. -/
theorem claim_C4 (env : Env) (fuel i : Nat) (ho : env.isOpened = true)
    (hint : env.interrupt = none) (hr : ∀ j, j ≤ i → env.readOk j = true) (hf : i < fuel) :
    ∃ A B, (runProgram env fuel).events
        = A ++ (Event.read i true
            :: Event.save (filepath env i)
            :: Event.msg ("Saved: " ++ filepath env i)
            :: Event.sleep sleep_seconds :: B)
      ∧ filepath env i = os_path_join save_dir (filename (env.now i))
      ∧ sleep_seconds = 60 := by
  obtain ⟨rest, hev⟩ := runProgram_prefix ho hint (fun j hj => hr j (by omega))
    (show i + 1 ≤ fuel by omega)
  refine ⟨preEvents ++ iterBlock env 0 i, rest, ?_, rfl, rfl⟩
  rw [hev, iterBlock_succ_right]
  simp [iterEvents, List.append_assoc]

/-- C4 witness: the segment of iteration 1 of a concrete all-successful
run. -/
theorem claim_C4_witness :
    ∃ A B, (runProgram allOkEnv 3).events
        = A ++ (Event.read 1 true
            :: Event.save (filepath allOkEnv 1)
            :: Event.msg ("Saved: " ++ filepath allOkEnv 1)
            :: Event.sleep sleep_seconds :: B)
      ∧ filepath allOkEnv 1 = os_path_join save_dir (filename (allOkEnv.now 1))
      ∧ sleep_seconds = 60 :=
  claim_C4 allOkEnv 3 1 rfl rfl (by decide) (by omega)

/-- C6: for every successful iteration the trace contains the save of the
file immediately followed by the `Saved:` confirmation naming the same
path, so the file is among the saved (existing) files at the moment the
message is emitted; and the filename encodes the wall-clock second of the
save: any valid timestamp that yields the same filename is equal to the
wall clock of that iteration. -/
theorem claim_C6 (env : Env) (fuel i : Nat) (d : DateTime) (ho : env.isOpened = true)
    (hint : env.interrupt = none) (hr : ∀ j, j ≤ i → env.readOk j = true) (hf : i < fuel)
    (hvd : d.Valid) (hvi : (env.now i).Valid)
    (heq : filename d = filename (env.now i)) :
    ∃ A B, (runProgram env fuel).events
        = A ++ (Event.save (filepath env i)
            :: Event.msg ("Saved: " ++ filepath env i) :: B)
      ∧ filepath env i ∈ savedPaths (A ++ [Event.save (filepath env i)])
      ∧ d = env.now i := by
  obtain ⟨rest, hev⟩ := runProgram_prefix ho hint (fun j hj => hr j (by omega))
    (show i + 1 ≤ fuel by omega)
  refine ⟨preEvents ++ iterBlock env 0 i ++ [Event.read i true],
    Event.sleep sleep_seconds :: rest, ?_, ?_, filename_inj hvd hvi heq⟩
  · rw [hev, iterBlock_succ_right]
    simp [iterEvents, List.append_assoc]
  · rw [savedPaths_append]
    exact List.mem_append.mpr (Or.inr (by simp [savedPaths, savePathOf]))

/-- C6 witness: iteration 0 of a concrete all-successful run, with the
timestamp equality instantiated reflexively at the concrete clock. -/
theorem claim_C6_witness :
    ∃ A B, (runProgram allOkEnv 3).events
        = A ++ (Event.save (filepath allOkEnv 0)
            :: Event.msg ("Saved: " ++ filepath allOkEnv 0) :: B)
      ∧ filepath allOkEnv 0 ∈ savedPaths (A ++ [Event.save (filepath allOkEnv 0)])
      ∧ dt0 = allOkEnv.now 0 :=
  claim_C6 allOkEnv 3 0 dt0 rfl rfl (by decide) (by omega) (by decide) (by decide) rfl

/-- C7: a user cancellation delivered at any point of iteration `k` of
the loop body or of its sleep ends the run with outcome `stoppedUser`,
the stop message in the trace, and exactly one release; the saved files
are exactly the complete per-iteration files written before the delivery
point (saves are atomic: an interrupt is delivered between statements),
so a cancellation during the sleep leaves the `k + 1` complete files of
iterations `0..k` and no partial file for the interrupted interval. -/
theorem claim_C7 (env : Env) (fuel k : Nat) (p : IPoint) (ho : env.isOpened = true)
    (hintr : env.interrupt = some (k, p))
    (hr : ∀ j, j ≤ k → env.readOk j = true) (hf : k < fuel) :
    (runProgram env fuel).outcome = Outcome.stoppedUser
    ∧ Event.msg stopMessage ∈ (runProgram env fuel).events
    ∧ countRelease (runProgram env fuel).events = 1
    ∧ savedPaths (runProgram env fuel).events
        = ((List.range k).map fun j => filepath env j) ++ savedPaths (interruptTail env k p)
    ∧ (p = IPoint.duringSleep →
        savedPaths (runProgram env fuel).events
          = (List.range (k + 1)).map fun j => filepath env j) := by
  have hrun := runProgram_userStop ho hintr hr hf
  have hpaths : savedPaths (runProgram env fuel).events
      = ((List.range k).map fun j => filepath env j) ++ savedPaths (interruptTail env k p) := by
    rw [hrun]
    show savedPaths (preEvents ++ (iterBlock env 0 k ++ interruptTail env k p) ++ _) = _
    rw [savedPaths_append, savedPaths_append, savedPaths_preEvents, savedPaths_append,
      savedPaths_iterBlock]
    simp [savedPaths, savePathOf]
  refine ⟨by rw [hrun], by rw [hrun]; simp, ?_, hpaths, ?_⟩
  · rw [hrun]
    show countRelease (preEvents ++ (iterBlock env 0 k ++ interruptTail env k p) ++ _) = 1
    rw [countRelease_append, countRelease_append, countRelease_preEvents,
      countRelease_append, countRelease_iterBlock, countRelease_interruptTail]
    rfl
  · intro hp
    rw [hpaths, hp, savedPaths_interruptTail_duringSleep, List.range_succ, List.map_append]
    simp

/-- C7 witness: cancellation during the sleep of iteration 1 of a
concrete run leaves exactly the two complete files of iterations 0 and 1,
emits the stop message, and releases the handle once. -/
theorem claim_C7_witness :
    (runProgram sleepIntEnv 5).outcome = Outcome.stoppedUser
    ∧ Event.msg stopMessage ∈ (runProgram sleepIntEnv 5).events
    ∧ countRelease (runProgram sleepIntEnv 5).events = 1
    ∧ savedPaths (runProgram sleepIntEnv 5).events
        = ((List.range 1).map fun j => filepath sleepIntEnv j)
          ++ savedPaths (interruptTail sleepIntEnv 1 IPoint.duringSleep)
    ∧ (IPoint.duringSleep = IPoint.duringSleep →
        savedPaths (runProgram sleepIntEnv 5).events
          = (List.range (1 + 1)).map fun j => filepath sleepIntEnv j) :=
  claim_C7 sleepIntEnv 5 1 IPoint.duringSleep rfl rfl (by decide) (by omega)

/-- C8: `os.makedirs(save_dir, exist_ok=True)` succeeds on every
filesystem state, yields a state containing the output directory (and
all its ancestors) while preserving existing directories — in particular
it does not fail when the directory already exists — and in every run
that opens the stream the directory-creation event precedes the whole
rest of the trace, hence every save. -/
theorem claim_C8 (env : Env) (fuel : Nat) (fs : List String) (ho : env.isOpened = true) :
    (∃ fs2, os_makedirs save_dir true fs = Except.ok fs2 ∧ save_dir ∈ fs2
      ∧ (∀ q, q ∈ pathPrefixes save_dir → q ∈ fs2) ∧ ∀ x, x ∈ fs → x ∈ fs2)
    ∧ ∃ rest, (runProgram env fuel).events = preEvents ++ rest
        ∧ Event.mkdirs save_dir ∈ preEvents ∧ savedPaths preEvents = [] := by
  constructor
  · refine ⟨fs ++ (pathPrefixes save_dir).filter fun q => ¬ q ∈ fs, ?_, ?_, ?_, ?_⟩
    · unfold os_makedirs
      rw [if_neg]
      rintro ⟨-, hfalse⟩
      exact Bool.noConfusion hfalse
    · by_cases hmem : save_dir ∈ fs
      · exact List.mem_append.mpr (Or.inl hmem)
      · refine List.mem_append.mpr (Or.inr ?_)
        rw [List.mem_filter]
        exact ⟨by decide, by simpa using hmem⟩
    · intro q hq
      by_cases hmem : q ∈ fs
      · exact List.mem_append.mpr (Or.inl hmem)
      · refine List.mem_append.mpr (Or.inr ?_)
        rw [List.mem_filter]
        exact ⟨hq, by simpa using hmem⟩
    · intro x hx
      exact List.mem_append.mpr (Or.inl hx)
  · obtain ⟨rest, hev⟩ := runProgram_events_pre fuel ho
    exact ⟨rest, hev, by simp [preEvents], rfl⟩

/-- C8 witness: the amended facts at a concrete filesystem that already
contains the output directory (idempotent success) and a concrete
all-successful run. -/
theorem claim_C8_witness :
    (∃ fs2, os_makedirs save_dir true [save_dir] = Except.ok fs2 ∧ save_dir ∈ fs2
      ∧ (∀ q, q ∈ pathPrefixes save_dir → q ∈ fs2) ∧ ∀ x, x ∈ [save_dir] → x ∈ fs2)
    ∧ ∃ rest, (runProgram allOkEnv 3).events = preEvents ++ rest
        ∧ Event.mkdirs save_dir ∈ preEvents ∧ savedPaths preEvents = [] :=
  claim_C8 allOkEnv 3 [save_dir] rfl

/-- C9: the second-resolution timestamp naming is injective on saves more
than one second apart — any two valid timestamps whose (strictly ordered)
clock keys differ yield distinct filenames — and in a run that saves `k`
frames before a read failure, with a clock that strictly advances between
iterations, the saved files are exactly the per-iteration paths, their
encoded timestamps are strictly increasing, and the filenames are
pairwise distinct. -/
theorem claim_C9 (env : Env) (fuel k : Nat) (d1 d2 : DateTime)
    (ho : env.isOpened = true) (hint : env.interrupt = none)
    (hr : ∀ j, j < k → env.readOk j = true) (hfail : env.readOk k = false) (hf : k < fuel)
    (hval : ∀ i, i < k → (env.now i).Valid)
    (hmono : ∀ j, j < k → ∀ i, i < j → timeKey (env.now i) < timeKey (env.now j))
    (h1 : d1.Valid) (h2 : d2.Valid) (hsep : timeKey d1 < timeKey d2) :
    filename d1 ≠ filename d2
    ∧ savedPaths (runProgram env fuel).events = ((List.range k).map fun j => filepath env j)
    ∧ ((List.range k).map env.now).Pairwise (fun a b => timeKey a < timeKey b)
    ∧ (savedPaths (runProgram env fuel).events).Pairwise (fun a b => a ≠ b) := by
  have hpaths := savedPaths_run_readFail ho hint hr hfail hf
  have hlt := List.pairwise_lt_range k
  refine ⟨filename_ne_of_timeKey_lt h1 h2 hsep, hpaths, ?_, ?_⟩
  · rw [List.pairwise_map]
    exact hlt.imp_of_mem fun ha hb hab => hmono _ (List.mem_range.mp hb) _ hab
  · rw [hpaths, List.pairwise_map]
    refine hlt.imp_of_mem fun ha hb hab => ?_
    have hjk := List.mem_range.mp hb
    exact filepath_ne (filename_ne_of_timeKey_lt (hval _ (by omega)) (hval _ hjk)
      (hmono _ hjk _ hab))

/-- C9 witness: the concrete three-saves-then-fail run with a clock that
advances one second per iteration, and two concrete timestamps one second
apart. -/
theorem claim_C9_witness :
    filename (DateTime.mk 2026 1 2 3 4 0) ≠ filename (DateTime.mk 2026 1 2 3 4 1)
    ∧ savedPaths (runProgram clockEnv 5).events
        = ((List.range 3).map fun j => filepath clockEnv j)
    ∧ ((List.range 3).map clockEnv.now).Pairwise (fun a b => timeKey a < timeKey b)
    ∧ (savedPaths (runProgram clockEnv 5).events).Pairwise (fun a b => a ≠ b) :=
  claim_C9 clockEnv 5 3 (DateTime.mk 2026 1 2 3 4 0) (DateTime.mk 2026 1 2 3 4 1)
    rfl rfl (by decide) (by decide) (by omega) (by decide) (by decide)
    (by decide) (by decide) (by decide)

/-- C10 counterexample: the claim asserts that at every point of a run
the number of saves equals the number of successful reads so far; but
immediately after a read, before its save, the counts differ: after the
first four events of a concrete all-successful run (open, mkdir, startup
message, first read) one successful read and zero saves have occurred. -/
theorem claim_C10_counterexample :
    countReadsOk ((runProgram allOkEnv 2).events.take 4) = 1
    ∧ countSaves ((runProgram allOkEnv 2).events.take 4) = 0 := by decide

/-- C10 (amended): every loop iteration performs exactly one frame read;
in an uninterrupted run, at every point of the trace the number of saves
never exceeds the number of successful reads and lags it by at most one
(the lag occurs only between a read and its save, so every successfully
read frame is written before the next read); and at every iteration
boundary the counts are equal: the prefix of the trace covering the first
`m` complete iterations contains exactly `m` saves and `m` successful
reads. -/
theorem claim_C10 (env : Env) (fuel n i m : Nat) (ho : env.isOpened = true)
    (hint : env.interrupt = none) (hrm : ∀ j, j < m → env.readOk j = true) (hm : m ≤ fuel) :
    countReads (iterEvents env i) = 1
    ∧ countSaves ((runProgram env fuel).events.take n)
        ≤ countReadsOk ((runProgram env fuel).events.take n)
    ∧ countReadsOk ((runProgram env fuel).events.take n)
        ≤ countSaves ((runProgram env fuel).events.take n) + 1
    ∧ countSaves (preEvents ++ iterBlock env 0 m) = m
    ∧ countReadsOk (preEvents ++ iterBlock env 0 m) = m
    ∧ List.IsPrefix (preEvents ++ iterBlock env 0 m) (runProgram env fuel).events := by
  obtain ⟨hb1, hb2⟩ := balanced_run fuel hint n
  refine ⟨rfl, hb1, hb2, ?_, ?_, ?_⟩
  · rw [countSaves_append, countSaves_iterBlock]
    have h0 : countSaves preEvents = 0 := rfl
    omega
  · rw [countReadsOk_append, countReadsOk_iterBlock]
    have h0 : countReadsOk preEvents = 0 := rfl
    omega
  · obtain ⟨rest, hev⟩ := runProgram_prefix ho hint hrm hm
    exact ⟨rest, by rw [hev, List.append_assoc]⟩

/-- C10 witness: the amended claim at a concrete all-successful run,
a point inside an iteration, and the boundary of two iterations. -/
theorem claim_C10_witness :
    countReads (iterEvents allOkEnv 0) = 1
    ∧ countSaves ((runProgram allOkEnv 3).events.take 5)
        ≤ countReadsOk ((runProgram allOkEnv 3).events.take 5)
    ∧ countReadsOk ((runProgram allOkEnv 3).events.take 5)
        ≤ countSaves ((runProgram allOkEnv 3).events.take 5) + 1
    ∧ countSaves (preEvents ++ iterBlock allOkEnv 0 2) = 2
    ∧ countReadsOk (preEvents ++ iterBlock allOkEnv 0 2) = 2
    ∧ List.IsPrefix (preEvents ++ iterBlock allOkEnv 0 2) (runProgram allOkEnv 3).events :=
  claim_C10 allOkEnv 3 5 0 2 rfl rfl (by decide) (by omega)

end Frames
